import Mathlib

/-!
Verification of the Monte Carlo Prisoner's Dilemma engine.

Shallow embedding of `src/backend/simulation.py` (the core engine) and the
relevant parts of `src/backend/app.py` (the streaming variant and the
outcome-bucket bookkeeping).  Machine floats are modelled as rationals;
the PyTorch random source is modelled as an explicit stream of draws
threaded through the computation.
-/

namespace Sim

/-- Model of the shared PyTorch random source: a stream of `rand(())` draws
(rationals) and a stream of `randint(0, 2)` draws (booleans, `true` meaning
the draw was `1`), each with a cursor giving the next position to read. -/
structure Rng where
  floats : Nat → Rat
  ints : Nat → Bool
  fpos : Nat
  ipos : Nat

/-- One `rand(())` draw: return the next float and advance the cursor. -/
def Rng.nextFloat (r : Rng) : Rat × Rng :=
  (r.floats r.fpos, ⟨r.floats, r.ints, r.fpos + 1, r.ipos⟩)

/-- One `randint(0, 2)` draw: return the next 0/1 value and advance the cursor. -/
def Rng.nextInt (r : Rng) : Nat × Rng :=
  ((if r.ints r.ipos then 1 else 0), ⟨r.floats, r.ints, r.fpos, r.ipos + 1⟩)

/-- The `StrategyType` enum of `simulation.py`. -/
inductive StrategyType where
  | always_cooperate
  | always_defect
  | probabilistic
  | tit_for_tat
  | random
deriving DecidableEq, Repr

/-- The `StrategyConfig` dataclass: a strategy kind plus the cooperation
probability (defaulting to 1.0 in the source). -/
structure StrategyConfig where
  strategy_type : StrategyType
  cooperate_probability : Rat := 1
deriving DecidableEq

/-- `StrategyConfig.sample_action`: 0 means cooperate, 1 means defect.
Random strategies consume entropy from the shared random source. -/
def StrategyConfig.sample_action (s : StrategyConfig) (round_index : Nat)
    (opponent_previous_action : Nat) (rng : Rng) : Nat × Rng :=
  match s.strategy_type with
  | .always_cooperate => (0, rng)
  | .always_defect => (1, rng)
  | .tit_for_tat =>
      if round_index = 1 then (0, rng)
      else ((if opponent_previous_action ≠ 0 then 1 else 0), rng)
  | .random => rng.nextInt
  | .probabilistic =>
      match rng.nextFloat with
      | (u, rng') => ((if u < s.cooperate_probability then 0 else 1), rng')

/-- The `PayoffConfig` dataclass with its default (3, 5, 0, 1) values. -/
structure PayoffConfig where
  reward : Rat := 3
  temptation : Rat := 5
  sucker : Rat := 0
  punishment : Rat := 1
deriving DecidableEq

/-- Indexing `PayoffConfig.to_tensor()` at `[action1, action2]`: the pure
2x2 payoff lookup.  Indices are always 0 or 1 when produced by
`sample_action`; the final catch-all row mirrors the `[1][1]` entry. -/
def PayoffConfig.payoff_for (pc : PayoffConfig) (a1 a2 : Nat) : Rat × Rat :=
  match a1, a2 with
  | 0, 0 => (pc.reward, pc.reward)
  | 0, _ => (pc.sucker, pc.temptation)
  | 1, 0 => (pc.temptation, pc.sucker)
  | _, _ => (pc.punishment, pc.punishment)

/-- `OUTCOME_INDEX`: bucket index of an action pair (CC=0, CD=1, DC=2, DD=3).
Only pairs of 0/1 values occur; the catch-all mirrors the `(1, 1)` entry. -/
def outcomeIndex (a1 a2 : Nat) : Nat :=
  match a1, a2 with
  | 0, 0 => 0
  | 0, _ => 1
  | 1, 0 => 2
  | _, _ => 3

/-- The four outcome-bucket counters (the `run_outcome_counts` /
`overall_outcome_counts` tensors, whose entries are whole numbers). -/
structure Counts where
  cc : Nat := 0
  cd : Nat := 0
  dc : Nat := 0
  dd : Nat := 0
deriving DecidableEq

/-- Increment the bucket at the given index (`run_outcome_counts[idx] += 1`). -/
def Counts.bump (c : Counts) (idx : Nat) : Counts :=
  match idx with
  | 0 => { c with cc := c.cc + 1 }
  | 1 => { c with cd := c.cd + 1 }
  | 2 => { c with dc := c.dc + 1 }
  | _ => { c with dd := c.dd + 1 }

/-- Pointwise sum of two outcome-count tables (`overall += run`). -/
def Counts.add (c d : Counts) : Counts :=
  ⟨c.cc + d.cc, c.cd + d.cd, c.dc + d.dc, c.dd + d.dd⟩

/-- Total of the four outcome buckets. -/
def Counts.total (c : Counts) : Nat :=
  c.cc + c.cd + c.dc + c.dd

/-- The `SimulationConfig` dataclass.  `rounds`, `monte_carlo_runs` and
`round_event_chunk_size` are Python ints, hence `Int` here; validation
(`__post_init__`) is modelled separately by `mkSimulationConfig`. -/
structure SimulationConfig where
  rounds : Int
  monte_carlo_runs : Int
  player_strategies : StrategyConfig × StrategyConfig
  payoffs : PayoffConfig := {}
  round_event_chunk_size : Int := 64
deriving DecidableEq

/-- Per-run mutable state of the loop: `run_payoff`, `run_cooperation_counts`
and `run_outcome_counts`. -/
structure RunState where
  payoff1 : Rat := 0
  payoff2 : Rat := 0
  coop1 : Nat := 0
  coop2 : Nat := 0
  counts : Counts := {}
deriving DecidableEq

/-- The per-round payload dictionary built inside `run_simulation`. -/
structure RoundPayload where
  run : Nat
  round : Nat
  cumulative_round : Nat
  action1 : String
  action2 : String
  cooperated1 : Bool
  cooperated2 : Bool
  cumulative_cooperation1 : Nat
  cumulative_cooperation2 : Nat
  round_payoff1 : Rat
  round_payoff2 : Rat
  total_payoff1 : Rat
  total_payoff2 : Rat
  cooperation_rate1 : Rat
  cooperation_rate2 : Rat
  outcome_counts : Counts
deriving DecidableEq

/-- The `run_complete` event payload. -/
structure RunCompletePayload where
  run : Nat
  total_payoff1 : Rat
  total_payoff2 : Rat
  total_cooperation1 : Nat
  total_cooperation2 : Nat
  average_payoff_per_round1 : Rat
  average_payoff_per_round2 : Rat
  cooperation_rate1 : Rat
  cooperation_rate2 : Rat
  outcome_counts : Counts
deriving DecidableEq

/-- The final `summary` event payload. -/
structure SummaryPayload where
  runs : Int
  rounds : Int
  total_payoff1 : Rat
  total_payoff2 : Rat
  average_payoff_per_round1 : Rat
  average_payoff_per_round2 : Rat
  cooperation_rate1 : Rat
  cooperation_rate2 : Rat
  total_cooperation1 : Nat
  total_cooperation2 : Nat
  outcome_counts : Counts
  outcome_distribution_cc : Rat
  outcome_distribution_cd : Rat
  outcome_distribution_dc : Rat
  outcome_distribution_dd : Rat
  payoffs : PayoffConfig
  round_event_chunk_size : Int
deriving DecidableEq

/-- Whole-simulation accumulators (`overall_payoff`,
`overall_cooperation_counts`, `overall_outcome_counts`). -/
structure OverallState where
  payoff1 : Rat := 0
  payoff2 : Rat := 0
  coop1 : Nat := 0
  coop2 : Nat := 0
  counts : Counts := {}
deriving DecidableEq

/-- The three event kinds yielded by `run_simulation`. -/
inductive Event where
  | round_batch (rounds : List RoundPayload)
  | run_complete (payload : RunCompletePayload)
  | summary (payload : SummaryPayload)
deriving DecidableEq

/-- The body of the inner `for round_index ...` loop of `run_simulation`:
sample both actions, look up the payoff, update the run state and build the
round payload.  Returns (payload, new state, new previous-actions, new rng). -/
def roundStep (s1 s2 : StrategyConfig) (pc : PayoffConfig)
    (run_index total_rounds i : Nat) (prev : Nat × Nat) (st : RunState)
    (rng : Rng) : RoundPayload × RunState × (Nat × Nat) × Rng :=
  let r1 := s1.sample_action i prev.2 rng
  let r2 := s2.sample_action i prev.1 r1.2
  let a1 := r1.1
  let a2 := r2.1
  let pay := pc.payoff_for a1 a2
  let st' : RunState :=
    ⟨st.payoff1 + pay.1, st.payoff2 + pay.2,
     st.coop1 + (if a1 = 0 then 1 else 0), st.coop2 + (if a2 = 0 then 1 else 0),
     st.counts.bump (outcomeIndex a1 a2)⟩
  let payload : RoundPayload :=
    ⟨run_index, i, (run_index - 1) * total_rounds + i,
     (if a1 = 0 then "C" else "D"), (if a2 = 0 then "C" else "D"),
     decide (a1 = 0), decide (a2 = 0),
     st'.coop1, st'.coop2,
     pay.1, pay.2,
     st'.payoff1, st'.payoff2,
     (st'.coop1 : Rat) / (i : Rat), (st'.coop2 : Rat) / (i : Rat),
     st'.counts⟩
  (payload, st', (a1, a2), r2.2)

/-- Round indices `s, s+1, ..., s+n-1` (`range(s, s+n)` in the source). -/
def natRange (s : Nat) : Nat → List Nat
  | 0 => []
  | k + 1 => s :: natRange (s + 1) k

/-- The inner round loop with its `round_buffer` chunking: returns the list
of flushed batches, the final run state, the unflushed buffer and the rng.
A batch is flushed as soon as the buffer length reaches the chunk size. -/
def roundLoop (s1 s2 : StrategyConfig) (pc : PayoffConfig) (chunk : Nat)
    (run_index total_rounds : Nat) :
    List Nat → (Nat × Nat) → RunState → List RoundPayload → Rng →
    List (List RoundPayload) × RunState × List RoundPayload × Rng
  | [], _, st, buf, rng => ([], st, buf, rng)
  | i :: rest, prev, st, buf, rng =>
      match roundStep s1 s2 pc run_index total_rounds i prev st rng with
      | (payload, st', prev', rng') =>
          let buf' := buf ++ [payload]
          if chunk ≤ buf'.length then
            match roundLoop s1 s2 pc chunk run_index total_rounds rest prev' st' [] rng' with
            | (batches, stF, bufF, rngF) => (buf' :: batches, stF, bufF, rngF)
          else
            roundLoop s1 s2 pc chunk run_index total_rounds rest prev' st' buf' rng'

/-- The same round recursion without the buffering: the payloads in order
plus the final state and rng.  Used to reason about contents independently
of the chunking (`roundLoop` is proved to refine it). -/
def roundRecs (s1 s2 : StrategyConfig) (pc : PayoffConfig)
    (run_index total_rounds : Nat) :
    List Nat → (Nat × Nat) → RunState → Rng →
    List RoundPayload × RunState × Rng
  | [], _, st, rng => ([], st, rng)
  | i :: rest, prev, st, rng =>
      match roundStep s1 s2 pc run_index total_rounds i prev st rng with
      | (payload, st', prev', rng') =>
          match roundRecs s1 s2 pc run_index total_rounds rest prev' st' rng' with
          | (payloads, stF, rngF) => (payload :: payloads, stF, rngF)

/-- One iteration of the outer `for run_index ...` loop: play all rounds
(starting from `previous_actions = (0, 0)` and empty accumulators), flush
the remaining partial batch, and emit the `run_complete` event. -/
def runOne (cfg : SimulationConfig) (run_index : Nat) (rng : Rng) :
    List Event × RunState × Rng :=
  let R := cfg.rounds.toNat
  match roundLoop cfg.player_strategies.1 cfg.player_strategies.2 cfg.payoffs
      cfg.round_event_chunk_size.toNat run_index R (natRange 1 R) (0, 0) {} [] rng with
  | (batches, st, buf, rng') =>
      let allBatches := if buf.isEmpty then batches else batches ++ [buf]
      let rc : RunCompletePayload :=
        ⟨run_index, st.payoff1, st.payoff2, st.coop1, st.coop2,
         st.payoff1 / (cfg.rounds : Rat), st.payoff2 / (cfg.rounds : Rat),
         (st.coop1 : Rat) / (cfg.rounds : Rat), (st.coop2 : Rat) / (cfg.rounds : Rat),
         st.counts⟩
      (allBatches.map Event.round_batch ++ [Event.run_complete rc], st, rng')

/-- The outer run loop: events of each run in order, folding each run's
state into the overall accumulators. -/
def runsLoop (cfg : SimulationConfig) :
    List Nat → OverallState → Rng → List Event × OverallState × Rng
  | [], ov, rng => ([], ov, rng)
  | k :: rest, ov, rng =>
      match runOne cfg k rng with
      | (evs, st, rng') =>
          let ov' : OverallState :=
            ⟨ov.payoff1 + st.payoff1, ov.payoff2 + st.payoff2,
             ov.coop1 + st.coop1, ov.coop2 + st.coop2,
             ov.counts.add st.counts⟩
          match runsLoop cfg rest ov' rng' with
          | (evsR, ovF, rngF) => (evs ++ evsR, ovF, rngF)

/-- The `final_summary` dictionary. -/
def mkSummary (cfg : SimulationConfig) (ov : OverallState) : SummaryPayload :=
  let trp : Rat := ((cfg.rounds * cfg.monte_carlo_runs : Int) : Rat)
  ⟨cfg.monte_carlo_runs, cfg.rounds,
   ov.payoff1, ov.payoff2,
   ov.payoff1 / trp, ov.payoff2 / trp,
   (ov.coop1 : Rat) / trp, (ov.coop2 : Rat) / trp,
   ov.coop1, ov.coop2,
   ov.counts,
   (ov.counts.cc : Rat) / trp, (ov.counts.cd : Rat) / trp,
   (ov.counts.dc : Rat) / trp, (ov.counts.dd : Rat) / trp,
   cfg.payoffs, cfg.round_event_chunk_size⟩

/-- `run_simulation`: the full event sequence, as a function of the
configuration and the state of the random source. -/
def run_simulation (cfg : SimulationConfig) (rng : Rng) : List Event :=
  match runsLoop cfg (natRange 1 cfg.monte_carlo_runs.toNat) {} rng with
  | (evs, ov, _) => evs ++ [Event.summary (mkSummary cfg ov)]

/-- The two exception classes of `simulation.py`. -/
inductive SimError where
  | simulationValidationError (msg : String)
  | strategyLookupError (key : String)
deriving DecidableEq

/-- `resolve_strategy_type`: look the key up in `ALLOWED_STRATEGY_KEYS`,
raising `StrategyLookupError` for unknown keys. -/
def resolve_strategy_type (key : String) : Except SimError StrategyType :=
  if key = "always_cooperate" then .ok .always_cooperate
  else if key = "always_defect" then .ok .always_defect
  else if key = "probabilistic" then .ok .probabilistic
  else if key = "tit_for_tat" then .ok .tit_for_tat
  else if key = "random" then .ok .random
  else if key = "tit-for-tat" then .ok .tit_for_tat
  else .error (.strategyLookupError key)

/-- Construction of a `StrategyConfig` (dataclass init followed by
`StrategyConfig.__post_init__`): the [0, 1] probability check runs only
for the probabilistic kind. -/
def mkStrategyConfig (st : StrategyType) (p : Rat) : Except SimError StrategyConfig :=
  if st = .probabilistic then
    if 0 ≤ p ∧ p ≤ 1 then .ok ⟨st, p⟩
    else .error (.simulationValidationError
      "Probabilistic strategies require cooperate_probability in [0, 1].")
  else .ok ⟨st, p⟩

/-- Construction of a `SimulationConfig` (dataclass init followed by
`SimulationConfig.__post_init__`): rounds, runs and chunk size must all be
positive. -/
def mkSimulationConfig (rounds monte_carlo_runs : Int)
    (player_strategies : StrategyConfig × StrategyConfig)
    (payoffs : PayoffConfig) (round_event_chunk_size : Int) :
    Except SimError SimulationConfig :=
  if rounds ≤ 0 then
    .error (.simulationValidationError "Number of rounds must be positive.")
  else if monte_carlo_runs ≤ 0 then
    .error (.simulationValidationError "Monte Carlo runs must be positive.")
  else if round_event_chunk_size ≤ 0 then
    .error (.simulationValidationError "Round event chunk size must be positive.")
  else .ok ⟨rounds, monte_carlo_runs, player_strategies, payoffs, round_event_chunk_size⟩

/-!
Embedding of the relevant parts of `src/backend/app.py`: the outcome-bucket
bookkeeping of `run_monte_carlo_simulation` and the batch-streaming loop
`run_simulation_streaming`.  There, actions are booleans with `true`
standing for cooperate, and a round is a pair (player1 action, player2
action).
-/

/-- `(p1_actions & p2_actions).sum()`: number of rounds where both cooperate. -/
def bothCooperateCount (acts : List (Bool × Bool)) : Nat :=
  acts.countP fun a => a.1 && a.2

/-- `((~p1_actions) & (~p2_actions)).sum()`: number of rounds where both defect. -/
def bothDefectCount (acts : List (Bool × Bool)) : Nat :=
  acts.countP fun a => !a.1 && !a.2

/-- `(p1_actions & (~p2_actions)).sum()`: player 1 cooperates, player 2 defects. -/
def p1CoopP2DefectCount (acts : List (Bool × Bool)) : Nat :=
  acts.countP fun a => a.1 && !a.2

/-- `((~p1_actions) & p2_actions).sum()`: player 1 defects, player 2 cooperates. -/
def p1DefectP2CoopCount (acts : List (Bool × Bool)) : Nat :=
  acts.countP fun a => !a.1 && a.2

/-- `p1_actions.sum()`: player 1's own cooperation count. -/
def p1CoopCount (acts : List (Bool × Bool)) : Nat :=
  acts.countP fun a => a.1

/-- `p2_actions.sum()`: player 2's own cooperation count. -/
def p2CoopCount (acts : List (Bool × Bool)) : Nat :=
  acts.countP fun a => a.2

/-- Accumulators of `run_simulation_streaming` (`p1_total`, `p2_total`
and the four outcome counters). -/
structure StreamState where
  p1_total : Rat := 0
  p2_total : Rat := 0
  both_coop : Nat := 0
  both_defect : Nat := 0
  p1_coop_p2_defect : Nat := 0
  p1_defect_p2_coop : Nat := 0
deriving DecidableEq

/-- The progress metrics dictionary of `run_simulation_streaming`. -/
structure StreamMetrics where
  p1_avg : Rat
  p2_avg : Rat
  total_avg : Rat
  both_cooperate : Nat
  both_defect : Nat
  p1_coop_p2_defect : Nat
  p1_defect_p2_coop : Nat
deriving DecidableEq

/-- The summary dictionary emitted by the final `complete` event of
`run_simulation_streaming`. -/
structure StreamSummary where
  player1_avg_payoff : Rat
  player2_avg_payoff : Rat
  player1_coop_rate : Rat
  player2_coop_rate : Rat
  both_cooperate_rate : Rat
  both_defect_rate : Rat
  p1_coop_p2_defect_rate : Rat
  p1_defect_p2_coop_rate : Rat
  total_rounds : Nat
deriving DecidableEq

/-- The events pushed through `progress_callback` by `run_simulation_streaming`. -/
inductive StreamEvent where
  | progress (completed total : Nat) (metrics : StreamMetrics)
  | complete (result : StreamSummary)
  | error
deriving DecidableEq

/-- Whether a stream event is a terminal (`complete` or `error`) event. -/
def StreamEvent.isTerminal : StreamEvent → Bool
  | .progress _ _ _ => false
  | .complete _ => true
  | .error => true

/-- Draw `b` booleans `rand() < p` from the random source
(`torch.rand(b) < p`). -/
def drawBools (p : Rat) : Nat → Rng → List Bool × Rng
  | 0, rng => ([], rng)
  | b + 1, rng =>
      match rng.nextFloat with
      | (u, rng') =>
          match drawBools p b rng' with
          | (us, rng'') => (decide (u < p) :: us, rng'')

/-- Fold one batch of sampled action pairs into the streaming accumulators
(payoffs use the hard-coded (3, 5, 0, 1) matrix of `app.py`). -/
def streamAccum (st : StreamState) (acts : List (Bool × Bool)) : StreamState :=
  ⟨st.p1_total
      + 3 * (bothCooperateCount acts : Rat) + 0 * (p1CoopP2DefectCount acts : Rat)
      + 5 * (p1DefectP2CoopCount acts : Rat) + 1 * (bothDefectCount acts : Rat),
   st.p2_total
      + 3 * (bothCooperateCount acts : Rat) + 5 * (p1CoopP2DefectCount acts : Rat)
      + 0 * (p1DefectP2CoopCount acts : Rat) + 1 * (bothDefectCount acts : Rat),
   st.both_coop + bothCooperateCount acts,
   st.both_defect + bothDefectCount acts,
   st.p1_coop_p2_defect + p1CoopP2DefectCount acts,
   st.p1_defect_p2_coop + p1DefectP2CoopCount acts⟩

/-- The `while remaining > 0 and current_run.get('status') == 'running'` loop
of `run_simulation_streaming`.  The concurrently mutated session status is
modelled by `running : Nat → Bool`, giving the value read by the k-th status
check.  Returns the emitted progress events, the final accumulators, the
completed-round count, the next status-check index and the rng.  The first
argument is fuel making the recursion structural: with a positive batch size
the loop runs at most `rounds` iterations, so calling it with fuel `rounds`
is exact.  (The `b = 0` exit is unreachable for the positive batch sizes
the routes construct; in Python a zero batch size would loop forever.) -/
def streamLoop (p1 p2 : Rat) (rounds batchSize : Nat) (running : Nat → Bool) :
    Nat → Nat → Nat → Nat → StreamState → Rng →
    List StreamEvent × StreamState × Nat × Nat × Rng
  | 0, _, completed, k, st, rng => ([], st, completed, k, rng)
  | fuel + 1, remaining, completed, k, st, rng =>
    if remaining = 0 then ([], st, completed, k, rng)
    else if running k = false then ([], st, completed, k + 1, rng)
    else
      let b := min batchSize remaining
      if b = 0 then ([], st, completed, k + 1, rng)
      else
        match drawBools p1 b rng with
        | (acts1, rng1) =>
        match drawBools p2 b rng1 with
        | (acts2, rng2) =>
          let acts := acts1.zip acts2
          let st' := streamAccum st acts
          let completed' := completed + b
          let metrics : StreamMetrics :=
            ⟨st'.p1_total / (completed' : Rat), st'.p2_total / (completed' : Rat),
             (st'.p1_total + st'.p2_total) / (completed' : Rat),
             st'.both_coop, st'.both_defect,
             st'.p1_coop_p2_defect, st'.p1_defect_p2_coop⟩
          match streamLoop p1 p2 rounds batchSize running fuel
              (remaining - b) completed' (k + 1) st' rng2 with
          | (evs, stF, cF, kF, rngF) =>
              (StreamEvent.progress completed' rounds metrics :: evs, stF, cF, kF, rngF)

/-- `run_simulation_streaming` of `app.py`: run the batched loop, then emit
the `complete` summary only if the status still reads `running`.  (For
`rounds = 0` the summary helper divides by zero, which raises and is caught
by the surrounding handler, emitting an `error` event.) -/
def run_simulation_streaming (p1 p2 : Rat) (rounds batchSize : Nat)
    (running : Nat → Bool) (rng : Rng) : List StreamEvent :=
  if rounds = 0 then [StreamEvent.error]
  else
    match streamLoop p1 p2 rounds batchSize running rounds rounds 0 0 {} rng with
    | (evs, st, _, kF, _) =>
        if running kF then
          evs ++ [StreamEvent.complete
            ⟨st.p1_total / (rounds : Rat), st.p2_total / (rounds : Rat),
             ((st.both_coop + st.p1_coop_p2_defect : Nat) : Rat) / (rounds : Rat),
             ((st.both_coop + st.p1_defect_p2_coop : Nat) : Rat) / (rounds : Rat),
             (st.both_coop : Rat) / (rounds : Rat),
             (st.both_defect : Rat) / (rounds : Rat),
             (st.p1_coop_p2_defect : Rat) / (rounds : Rat),
             (st.p1_defect_p2_coop : Rat) / (rounds : Rat),
             rounds⟩]
        else evs

/-- A concrete random source used to instantiate theorems on closed inputs:
every float draw is 1/2 and every int draw is 0. -/
def constRng : Rng :=
  ⟨fun _ => (1 : Rat) / 2, fun _ => false, 0, 0⟩

/-- Two random-source states are equivalent when the streams of draws still
ahead of their cursors coincide (same remaining entropy). -/
def Rng.Equiv (r1 r2 : Rng) : Prop :=
  (∀ k, r1.floats (r1.fpos + k) = r2.floats (r2.fpos + k)) ∧
  (∀ k, r1.ints (r1.ipos + k) = r2.ints (r2.ipos + k))

/-- The action sequence drawn by a probabilistic strategy over a number of
rounds (each round one independent `sample_action` call). -/
def probActionSeq (p : Rat) : Nat → Rng → List Nat
  | 0, _ => []
  | k + 1, rng =>
      match StrategyConfig.sample_action ⟨.probabilistic, p⟩ 1 0 rng with
      | (a, rng') => a :: probActionSeq p k rng'

/-- A concrete deterministic strategy pair used to instantiate theorems. -/
def demoStrategies : StrategyConfig × StrategyConfig :=
  (⟨.always_cooperate, 1⟩, ⟨.always_defect, 1⟩)

/-- A concrete valid configuration (3 rounds, 2 runs, chunk size 2) used to
instantiate theorems on closed inputs. -/
def demoConfig : SimulationConfig := ⟨3, 2, demoStrategies, {}, 2⟩

/-- A concrete tit-for-tat vs always-defect configuration used to
instantiate theorems on closed inputs. -/
def tftConfig : SimulationConfig := ⟨3, 1, (⟨.tit_for_tat, 1⟩, ⟨.always_defect, 1⟩), {}, 64⟩

/-!
Lemmas: the whole computation reads the random source only through
`nextFloat` / `nextInt`, so equivalent sources produce identical results.
-/

theorem nextFloat_equiv {r1 r2 : Rng} (h : Rng.Equiv r1 r2) :
    r1.nextFloat.1 = r2.nextFloat.1 ∧ Rng.Equiv r1.nextFloat.2 r2.nextFloat.2 := by
  refine ⟨?_, ?_, ?_⟩
  · simpa using h.1 0
  · intro k
    have hk := h.1 (k + 1)
    simpa [Rng.nextFloat, Nat.add_assoc, Nat.add_comm 1 k] using hk
  · intro k
    exact h.2 k

theorem nextInt_equiv {r1 r2 : Rng} (h : Rng.Equiv r1 r2) :
    r1.nextInt.1 = r2.nextInt.1 ∧ Rng.Equiv r1.nextInt.2 r2.nextInt.2 := by
  refine ⟨?_, ?_, ?_⟩
  · have := h.2 0
    simp only [Rng.nextInt, Nat.add_zero] at this ⊢
    rw [this]
  · intro k
    exact h.1 k
  · intro k
    have hk := h.2 (k + 1)
    simpa [Rng.nextInt, Nat.add_assoc, Nat.add_comm 1 k] using hk

theorem sample_action_equiv (s : StrategyConfig) (i prevA : Nat) {r1 r2 : Rng}
    (h : Rng.Equiv r1 r2) :
    (s.sample_action i prevA r1).1 = (s.sample_action i prevA r2).1 ∧
    Rng.Equiv (s.sample_action i prevA r1).2 (s.sample_action i prevA r2).2 := by
  cases hs : s.strategy_type <;>
    simp only [StrategyConfig.sample_action, hs]
  · exact ⟨by trivial, h⟩
  · exact ⟨by trivial, h⟩
  · obtain ⟨hv, he⟩ := nextFloat_equiv h
    simp only [hv]
    exact ⟨by trivial, he⟩
  · split
    · exact ⟨by trivial, h⟩
    · exact ⟨by trivial, h⟩
  · obtain ⟨hv, he⟩ := nextInt_equiv h
    exact ⟨hv, he⟩

theorem roundStep_equiv (s1 s2 : StrategyConfig) (pc : PayoffConfig)
    (ri tr i : Nat) (prev : Nat × Nat) (st : RunState) {r1 r2 : Rng}
    (h : Rng.Equiv r1 r2) :
    (roundStep s1 s2 pc ri tr i prev st r1).1 = (roundStep s1 s2 pc ri tr i prev st r2).1 ∧
    (roundStep s1 s2 pc ri tr i prev st r1).2.1 = (roundStep s1 s2 pc ri tr i prev st r2).2.1 ∧
    (roundStep s1 s2 pc ri tr i prev st r1).2.2.1 = (roundStep s1 s2 pc ri tr i prev st r2).2.2.1 ∧
    Rng.Equiv (roundStep s1 s2 pc ri tr i prev st r1).2.2.2
      (roundStep s1 s2 pc ri tr i prev st r2).2.2.2 := by
  obtain ⟨ha1, he1⟩ := sample_action_equiv s1 i prev.2 h
  obtain ⟨ha2, he2⟩ := sample_action_equiv s2 i prev.1 he1
  simp only [roundStep, ha1, ha2]
  exact ⟨by trivial, by trivial, by trivial, he2⟩

theorem roundRecs_equiv (s1 s2 : StrategyConfig) (pc : PayoffConfig) (ri tr : Nat) :
    ∀ (L : List Nat) (prev : Nat × Nat) (st : RunState) {r1 r2 : Rng},
      Rng.Equiv r1 r2 →
      (roundRecs s1 s2 pc ri tr L prev st r1).1 = (roundRecs s1 s2 pc ri tr L prev st r2).1 ∧
      (roundRecs s1 s2 pc ri tr L prev st r1).2.1 = (roundRecs s1 s2 pc ri tr L prev st r2).2.1 ∧
      Rng.Equiv (roundRecs s1 s2 pc ri tr L prev st r1).2.2
        (roundRecs s1 s2 pc ri tr L prev st r2).2.2 := by
  intro L
  induction L with
  | nil => intro prev st r1 r2 h; exact ⟨rfl, rfl, h⟩
  | cons i rest ih =>
      intro prev st r1 r2 h
      have hs := roundStep_equiv s1 s2 pc ri tr i prev st h
      rcases hq1 : roundStep s1 s2 pc ri tr i prev st r1 with ⟨p1, st1, pr1, q1⟩
      rcases hq2 : roundStep s1 s2 pc ri tr i prev st r2 with ⟨p2, st2, pr2, q2⟩
      rw [hq1, hq2] at hs
      obtain ⟨hp, hst, hpr, he⟩ := hs
      subst hp hst hpr
      have ihr := ih pr1 st1 he
      simp only [roundRecs, hq1, hq2]
      rcases hr1 : roundRecs s1 s2 pc ri tr rest pr1 st1 q1 with ⟨ps1, sf1, qf1⟩
      rcases hr2 : roundRecs s1 s2 pc ri tr rest pr1 st1 q2 with ⟨ps2, sf2, qf2⟩
      rw [hr1, hr2] at ihr
      obtain ⟨h1, h2, h3⟩ := ihr
      subst h1 h2
      exact ⟨rfl, rfl, h3⟩

theorem roundLoop_equiv (s1 s2 : StrategyConfig) (pc : PayoffConfig)
    (chunk ri tr : Nat) :
    ∀ (L : List Nat) (prev : Nat × Nat) (st : RunState) (buf : List RoundPayload)
      {r1 r2 : Rng}, Rng.Equiv r1 r2 →
      (roundLoop s1 s2 pc chunk ri tr L prev st buf r1).1 =
        (roundLoop s1 s2 pc chunk ri tr L prev st buf r2).1 ∧
      (roundLoop s1 s2 pc chunk ri tr L prev st buf r1).2.1 =
        (roundLoop s1 s2 pc chunk ri tr L prev st buf r2).2.1 ∧
      (roundLoop s1 s2 pc chunk ri tr L prev st buf r1).2.2.1 =
        (roundLoop s1 s2 pc chunk ri tr L prev st buf r2).2.2.1 ∧
      Rng.Equiv (roundLoop s1 s2 pc chunk ri tr L prev st buf r1).2.2.2
        (roundLoop s1 s2 pc chunk ri tr L prev st buf r2).2.2.2 := by
  intro L
  induction L with
  | nil => intro prev st buf r1 r2 h; exact ⟨rfl, rfl, rfl, h⟩
  | cons i rest ih =>
      intro prev st buf r1 r2 h
      have hs := roundStep_equiv s1 s2 pc ri tr i prev st h
      rcases hq1 : roundStep s1 s2 pc ri tr i prev st r1 with ⟨p1, st1, pr1, q1⟩
      rcases hq2 : roundStep s1 s2 pc ri tr i prev st r2 with ⟨p2, st2, pr2, q2⟩
      rw [hq1, hq2] at hs
      obtain ⟨hp, hst, hpr, he⟩ := hs
      subst hp hst hpr
      simp only [roundLoop, hq1, hq2]
      split
      · rcases hr1 : roundLoop s1 s2 pc chunk ri tr rest pr1 st1 [] q1 with ⟨bs1, sf1, bf1, qf1⟩
        rcases hr2 : roundLoop s1 s2 pc chunk ri tr rest pr1 st1 [] q2 with ⟨bs2, sf2, bf2, qf2⟩
        have ihr := ih pr1 st1 ([] : List RoundPayload) he
        rw [hr1, hr2] at ihr
        obtain ⟨h1, h2, h3, h4⟩ := ihr
        subst h1 h2 h3
        exact ⟨rfl, rfl, rfl, h4⟩
      · exact ih pr1 st1 (buf ++ [p1]) he

theorem runOne_equiv (cfg : SimulationConfig) (k : Nat) {r1 r2 : Rng}
    (h : Rng.Equiv r1 r2) :
    (runOne cfg k r1).1 = (runOne cfg k r2).1 ∧
    (runOne cfg k r1).2.1 = (runOne cfg k r2).2.1 ∧
    Rng.Equiv (runOne cfg k r1).2.2 (runOne cfg k r2).2.2 := by
  have hl := roundLoop_equiv cfg.player_strategies.1 cfg.player_strategies.2 cfg.payoffs
    cfg.round_event_chunk_size.toNat k cfg.rounds.toNat
    (natRange 1 cfg.rounds.toNat) (0, 0) {} [] h
  simp only [runOne]
  rcases hq1 : roundLoop cfg.player_strategies.1 cfg.player_strategies.2 cfg.payoffs
      cfg.round_event_chunk_size.toNat k cfg.rounds.toNat
      (natRange 1 cfg.rounds.toNat) (0, 0) {} [] r1 with ⟨bs1, sf1, bf1, qf1⟩
  rcases hq2 : roundLoop cfg.player_strategies.1 cfg.player_strategies.2 cfg.payoffs
      cfg.round_event_chunk_size.toNat k cfg.rounds.toNat
      (natRange 1 cfg.rounds.toNat) (0, 0) {} [] r2 with ⟨bs2, sf2, bf2, qf2⟩
  rw [hq1, hq2] at hl
  obtain ⟨h1, h2, h3, h4⟩ := hl
  subst h1 h2 h3
  exact ⟨rfl, rfl, h4⟩

theorem runsLoop_equiv (cfg : SimulationConfig) :
    ∀ (ks : List Nat) (ov : OverallState) {r1 r2 : Rng}, Rng.Equiv r1 r2 →
      (runsLoop cfg ks ov r1).1 = (runsLoop cfg ks ov r2).1 ∧
      (runsLoop cfg ks ov r1).2.1 = (runsLoop cfg ks ov r2).2.1 := by
  intro ks
  induction ks with
  | nil => intro ov r1 r2 h; exact ⟨rfl, rfl⟩
  | cons k rest ih =>
      intro ov r1 r2 h
      have hs := runOne_equiv cfg k h
      rcases hq1 : runOne cfg k r1 with ⟨evs1, st1, q1⟩
      rcases hq2 : runOne cfg k r2 with ⟨evs2, st2, q2⟩
      rw [hq1, hq2] at hs
      obtain ⟨h1, h2, h3⟩ := hs
      subst h1 h2
      simp only [runsLoop, hq1, hq2]
      have ihr := ih ⟨ov.payoff1 + st1.payoff1, ov.payoff2 + st1.payoff2,
        ov.coop1 + st1.coop1, ov.coop2 + st1.coop2, ov.counts.add st1.counts⟩ h3
      rcases hr1 : runsLoop cfg rest _ q1 with ⟨es1, of1, qf1⟩
      rcases hr2 : runsLoop cfg rest _ q2 with ⟨es2, of2, qf2⟩
      rw [hr1, hr2] at ihr
      obtain ⟨g1, g2⟩ := ihr
      subst g1 g2
      exact ⟨rfl, rfl⟩

theorem probActionSeq_equiv (p : Rat) :
    ∀ (R : Nat) {r1 r2 : Rng}, Rng.Equiv r1 r2 →
      probActionSeq p R r1 = probActionSeq p R r2 := by
  intro R
  induction R with
  | zero => intro r1 r2 _; rfl
  | succ k ih =>
      intro r1 r2 h
      have hs := sample_action_equiv ⟨.probabilistic, p⟩ 1 0 h
      rcases hq1 : StrategyConfig.sample_action ⟨.probabilistic, p⟩ 1 0 r1 with ⟨a1, q1⟩
      rcases hq2 : StrategyConfig.sample_action ⟨.probabilistic, p⟩ 1 0 r2 with ⟨a2, q2⟩
      rw [hq1, hq2] at hs
      obtain ⟨h1, h2⟩ := hs
      subst h1
      simp only [probActionSeq, hq1, hq2]
      rw [ih h2]

/-- C8: with the same remaining entropy in the random source, a
probabilistic strategy reproduces the identical action sequence over any
number of rounds, and the whole event stream of `run_simulation` is a
deterministic function of the configuration and the random-source state. -/
theorem run_simulation_deterministic (cfg : SimulationConfig) (p : Rat) (R : Nat)
    {r1 r2 : Rng} (h : Rng.Equiv r1 r2) :
    probActionSeq p R r1 = probActionSeq p R r2 ∧
    run_simulation cfg r1 = run_simulation cfg r2 := by
  refine ⟨probActionSeq_equiv p R h, ?_⟩
  have hs := runsLoop_equiv cfg (natRange 1 cfg.monte_carlo_runs.toNat) {} h
  simp only [run_simulation]
  rcases hq1 : runsLoop cfg (natRange 1 cfg.monte_carlo_runs.toNat) {} r1 with ⟨evs1, ov1, q1⟩
  rcases hq2 : runsLoop cfg (natRange 1 cfg.monte_carlo_runs.toNat) {} r2 with ⟨evs2, ov2, q2⟩
  rw [hq1, hq2] at hs
  obtain ⟨h1, h2⟩ := hs
  subst h1 h2
  rfl

/-- C2: the per-round payoff lookup is total over the four action pairs and
returns (reward, reward), (sucker, temptation), (temptation, sucker) and
(punishment, punishment) respectively, for every payoff configuration. -/
theorem payoff_lookup_table (pc : PayoffConfig) :
    pc.payoff_for 0 0 = (pc.reward, pc.reward) ∧
    pc.payoff_for 0 1 = (pc.sucker, pc.temptation) ∧
    pc.payoff_for 1 0 = (pc.temptation, pc.sucker) ∧
    pc.payoff_for 1 1 = (pc.punishment, pc.punishment) :=
  ⟨rfl, rfl, rfl, rfl⟩

theorem bothCoop_add_p1CoopP2Defect (acts : List (Bool × Bool)) :
    bothCooperateCount acts + p1CoopP2DefectCount acts = p1CoopCount acts := by
  induction acts with
  | nil => rfl
  | cons a l ih =>
      rcases a with ⟨b1, b2⟩
      cases b1 <;> cases b2 <;>
        simp only [bothCooperateCount, p1CoopP2DefectCount, p1CoopCount,
          List.countP_cons] at ih ⊢ <;>
        simp <;> omega

theorem bothCoop_add_p1DefectP2Coop (acts : List (Bool × Bool)) :
    bothCooperateCount acts + p1DefectP2CoopCount acts = p2CoopCount acts := by
  induction acts with
  | nil => rfl
  | cons a l ih =>
      rcases a with ⟨b1, b2⟩
      cases b1 <;> cases b2 <;>
        simp only [bothCooperateCount, p1DefectP2CoopCount, p2CoopCount,
          List.countP_cons] at ih ⊢ <;>
        simp <;> omega

/-- C9: for every finite sequence of action pairs, a player's cooperation
rate reconstructed from the outcome buckets (both-cooperate plus the
player-specific cross bucket, divided by the number of rounds) equals the
rate computed directly from that player's own cooperate count. -/
theorem cooperation_rate_bucket_identity (acts : List (Bool × Bool)) :
    bothCooperateCount acts + p1CoopP2DefectCount acts = p1CoopCount acts ∧
    bothCooperateCount acts + p1DefectP2CoopCount acts = p2CoopCount acts ∧
    ((bothCooperateCount acts + p1CoopP2DefectCount acts : Nat) : Rat) / (acts.length : Rat)
      = (p1CoopCount acts : Rat) / (acts.length : Rat) ∧
    ((bothCooperateCount acts + p1DefectP2CoopCount acts : Nat) : Rat) / (acts.length : Rat)
      = (p2CoopCount acts : Rat) / (acts.length : Rat) := by
  refine ⟨bothCoop_add_p1CoopP2Defect acts, bothCoop_add_p1DefectP2Coop acts, ?_, ?_⟩
  · rw [bothCoop_add_p1CoopP2Defect acts]
  · rw [bothCoop_add_p1DefectP2Coop acts]

/-- C10: for every non-probabilistic strategy kind, construction succeeds
with any cooperation probability (the range check runs only for the
probabilistic kind, for which success is exactly the [0, 1] test). -/
theorem strategy_validation_only_probabilistic :
    (∀ st p, st ≠ StrategyType.probabilistic → mkStrategyConfig st p = .ok ⟨st, p⟩) ∧
    (∀ p, (mkStrategyConfig .probabilistic p).isOk ↔ 0 ≤ p ∧ p ≤ 1) := by
  constructor
  · intro st p hst
    simp [mkStrategyConfig, hst]
  · intro p
    by_cases hp : 0 ≤ p ∧ p ≤ 1 <;> simp [mkStrategyConfig, hp, Except.isOk, Except.toBool]

/-- Witness for C10: an always-cooperate strategy with probability 2
(outside [0, 1]) is constructed without error. -/
theorem strategy_validation_only_probabilistic_witness :
    StrategyType.always_cooperate ≠ StrategyType.probabilistic ∧
    mkStrategyConfig .always_cooperate 2 = .ok ⟨.always_cooperate, 2⟩ :=
  ⟨by decide, strategy_validation_only_probabilistic.1 .always_cooperate 2 (by decide)⟩

/-- C3: non-positive rounds, runs or chunk size, an out-of-range probability
for a probabilistic strategy, and an unrecognized strategy key each fail at
construction time (so no simulation event can be produced from them), while
valid inputs construct successfully. -/
theorem construction_validation :
    (∀ r n strats pc c, r ≤ 0 ∨ n ≤ 0 ∨ c ≤ 0 →
        ∃ msg, mkSimulationConfig r n strats pc c = .error (.simulationValidationError msg)) ∧
    (∀ p : Rat, ¬(0 ≤ p ∧ p ≤ 1) →
        ∃ msg, mkStrategyConfig .probabilistic p = .error (.simulationValidationError msg)) ∧
    (∀ key, (resolve_strategy_type key).isOk = false ↔
        key ∉ ["always_cooperate", "always_defect", "probabilistic",
               "tit_for_tat", "random", "tit-for-tat"]) ∧
    (∀ r n strats pc c, 0 < r → 0 < n → 0 < c →
        mkSimulationConfig r n strats pc c = .ok ⟨r, n, strats, pc, c⟩) := by
  refine ⟨?_, ?_, ?_, ?_⟩
  · intro r n strats pc c h
    rcases h with h | h | h
    · exact ⟨"Number of rounds must be positive.", by simp [mkSimulationConfig, h]⟩
    · by_cases hr : r ≤ 0
      · exact ⟨"Number of rounds must be positive.", by simp [mkSimulationConfig, hr]⟩
      · exact ⟨"Monte Carlo runs must be positive.", by simp [mkSimulationConfig, hr, h]⟩
    · by_cases hr : r ≤ 0
      · exact ⟨"Number of rounds must be positive.", by simp [mkSimulationConfig, hr]⟩
      · by_cases hn : n ≤ 0
        · exact ⟨"Monte Carlo runs must be positive.", by simp [mkSimulationConfig, hr, hn]⟩
        · exact ⟨"Round event chunk size must be positive.",
            by simp [mkSimulationConfig, hr, hn, h]⟩
  · intro p hp
    exact ⟨"Probabilistic strategies require cooperate_probability in [0, 1].",
      by simp [mkStrategyConfig, hp]⟩
  · intro key
    by_cases h1 : key = "always_cooperate"
    · simp [resolve_strategy_type, h1, Except.isOk, Except.toBool]
    · by_cases h2 : key = "always_defect"
      · simp [resolve_strategy_type, h1, h2, Except.isOk, Except.toBool]
      · by_cases h3 : key = "probabilistic"
        · simp [resolve_strategy_type, h1, h2, h3, Except.isOk, Except.toBool]
        · by_cases h4 : key = "tit_for_tat"
          · simp [resolve_strategy_type, h1, h2, h3, h4, Except.isOk, Except.toBool]
          · by_cases h5 : key = "random"
            · simp [resolve_strategy_type, h1, h2, h3, h4, h5, Except.isOk, Except.toBool]
            · by_cases h6 : key = "tit-for-tat"
              · simp [resolve_strategy_type, h1, h2, h3, h4, h5, h6, Except.isOk, Except.toBool]
              · simp [resolve_strategy_type, h1, h2, h3, h4, h5, h6, Except.isOk, Except.toBool]
  · intro r n strats pc c hr hn hc
    have hr' : ¬(r ≤ 0) := by omega
    have hn' : ¬(n ≤ 0) := by omega
    have hc' : ¬(c ≤ 0) := by omega
    simp [mkSimulationConfig, hr', hn', hc']

/-- Witness for C3: rounds = 0 and probability 3/2 are both rejected at
construction, an unknown key fails lookup, and a fully valid configuration
is accepted. -/
theorem construction_validation_witness :
    ((0 : Int) ≤ 0 ∨ (1 : Int) ≤ 0 ∨ (64 : Int) ≤ 0) ∧
    (∃ msg, mkSimulationConfig 0 1 (⟨.always_cooperate, 1⟩, ⟨.always_defect, 1⟩) {} 64 =
        .error (.simulationValidationError msg)) ∧
    ¬((0 : Rat) ≤ 2 ∧ (2 : Rat) ≤ 1) ∧
    (∃ msg, mkStrategyConfig .probabilistic 2 =
        .error (.simulationValidationError msg)) ∧
    ((resolve_strategy_type "nonsense").isOk = false) ∧
    ((0 : Int) < 5 ∧ (0 : Int) < 2 ∧ (0 : Int) < 64) ∧
    mkSimulationConfig 5 2 (⟨.always_cooperate, 1⟩, ⟨.always_defect, 1⟩) {} 64 =
      .ok ⟨5, 2, (⟨.always_cooperate, 1⟩, ⟨.always_defect, 1⟩), {}, 64⟩ := by
  refine ⟨Or.inl (by decide),
    construction_validation.1 0 1 (⟨.always_cooperate, 1⟩, ⟨.always_defect, 1⟩) {} 64
      (Or.inl (by decide)),
    by decide,
    construction_validation.2.1 2 (by decide),
    ?_,
    ⟨by decide, by decide, by decide⟩,
    construction_validation.2.2.2 5 2 (⟨.always_cooperate, 1⟩, ⟨.always_defect, 1⟩) {} 64
      (by decide) (by decide) (by decide)⟩
  rw [(construction_validation.2.2.1 "nonsense")]
  decide

/-!
Structural lemmas about the round loop: relation between the buffered loop
and the unbuffered recursion, outcome-count bookkeeping, and the chunking
arithmetic.
-/

theorem natRange_length (n : Nat) : ∀ s, (natRange s n).length = n := by
  induction n with
  | zero => intro s; rfl
  | succ k ih => intro s; simp [natRange, ih]

theorem Counts.total_bump (c : Counts) (idx : Nat) :
    (c.bump idx).total = c.total + 1 := by
  rcases idx with _ | _ | _ | idx <;>
    simp [Counts.bump, Counts.total] <;> omega

theorem Counts.total_add (c d : Counts) :
    (c.add d).total = c.total + d.total := by
  simp only [Counts.add, Counts.total]
  omega

theorem roundStep_state (s1 s2 : StrategyConfig) (pc : PayoffConfig)
    (ri tr i : Nat) (prev : Nat × Nat) (st : RunState) (rng : Rng) :
    (roundStep s1 s2 pc ri tr i prev st rng).2.1.counts =
      st.counts.bump (outcomeIndex (s1.sample_action i prev.2 rng).1
        ((s2.sample_action i prev.1 (s1.sample_action i prev.2 rng).2).1)) := rfl

theorem roundRecs_counts (s1 s2 : StrategyConfig) (pc : PayoffConfig) (ri tr : Nat) :
    ∀ (L : List Nat) (prev : Nat × Nat) (st : RunState) (rng : Rng),
      (roundRecs s1 s2 pc ri tr L prev st rng).2.1.counts.total =
        st.counts.total + L.length := by
  intro L
  induction L with
  | nil => intro prev st rng; simp [roundRecs]
  | cons i rest ih =>
      intro prev st rng
      rcases hq : roundStep s1 s2 pc ri tr i prev st rng with ⟨p, st', prev', rng'⟩
      have hc : st'.counts.total = st.counts.total + 1 := by
        have h1 : st' = (roundStep s1 s2 pc ri tr i prev st rng).2.1 := by rw [hq]
        rw [h1, roundStep_state, Counts.total_bump]
      simp only [roundRecs, hq]
      rcases hr : roundRecs s1 s2 pc ri tr rest prev' st' rng' with ⟨ps, sf, qf⟩
      have := ih prev' st' rng'
      rw [hr] at this
      simp only [this, hc, List.length_cons]
      omega

theorem roundLoop_recs (s1 s2 : StrategyConfig) (pc : PayoffConfig)
    (chunk ri tr : Nat) :
    ∀ (L : List Nat) (prev : Nat × Nat) (st : RunState) (buf : List RoundPayload)
      (rng : Rng),
      (roundLoop s1 s2 pc chunk ri tr L prev st buf rng).1.flatten ++
          (roundLoop s1 s2 pc chunk ri tr L prev st buf rng).2.2.1 =
        buf ++ (roundRecs s1 s2 pc ri tr L prev st rng).1 ∧
      (roundLoop s1 s2 pc chunk ri tr L prev st buf rng).2.1 =
        (roundRecs s1 s2 pc ri tr L prev st rng).2.1 ∧
      (roundLoop s1 s2 pc chunk ri tr L prev st buf rng).2.2.2 =
        (roundRecs s1 s2 pc ri tr L prev st rng).2.2 := by
  intro L
  induction L with
  | nil => intro prev st buf rng; exact ⟨by simp [roundLoop, roundRecs], rfl, rfl⟩
  | cons i rest ih =>
      intro prev st buf rng
      rcases hq : roundStep s1 s2 pc ri tr i prev st rng with ⟨p, st', prev', rng'⟩
      simp only [roundLoop, roundRecs, hq]
      rcases hr2 : roundRecs s1 s2 pc ri tr rest prev' st' rng' with ⟨ps, sf2, qf2⟩
      split
      · rcases hr1 : roundLoop s1 s2 pc chunk ri tr rest prev' st' [] rng' with ⟨bs, sf, bf, qf⟩
        have hih := ih prev' st' [] rng'
        rw [hr1, hr2] at hih
        obtain ⟨h1, h2, h3⟩ := hih
        simp only [List.flatten_cons, List.nil_append] at h1 ⊢
        refine ⟨?_, h2, h3⟩
        rw [List.append_assoc, h1]
        simp
      · have hih := ih prev' st' (buf ++ [p]) rng'
        rw [hr2] at hih
        obtain ⟨h1, h2, h3⟩ := hih
        refine ⟨?_, h2, h3⟩
        rw [h1]
        simp

theorem roundLoop_chunks (s1 s2 : StrategyConfig) (pc : PayoffConfig)
    (chunk ri tr : Nat) (hC : 0 < chunk) :
    ∀ (L : List Nat) (prev : Nat × Nat) (st : RunState) (buf : List RoundPayload)
      (rng : Rng), buf.length < chunk →
      (∀ b ∈ (roundLoop s1 s2 pc chunk ri tr L prev st buf rng).1, b.length = chunk) ∧
      (roundLoop s1 s2 pc chunk ri tr L prev st buf rng).2.2.1.length < chunk ∧
      ((roundLoop s1 s2 pc chunk ri tr L prev st buf rng).1.map List.length).sum +
          (roundLoop s1 s2 pc chunk ri tr L prev st buf rng).2.2.1.length =
        buf.length + L.length := by
  intro L
  induction L with
  | nil =>
      intro prev st buf rng hb
      refine ⟨by simp [roundLoop], by simpa [roundLoop] using hb, by simp [roundLoop]⟩
  | cons i rest ih =>
      intro prev st buf rng hb
      rcases hq : roundStep s1 s2 pc ri tr i prev st rng with ⟨p, st', prev', rng'⟩
      simp only [roundLoop, hq]
      split
      · rename_i hcond
        have hlen : (buf ++ [p]).length = chunk := by
          simp only [List.length_append, List.length_cons, List.length_nil] at hcond ⊢
          omega
        rcases hr1 : roundLoop s1 s2 pc chunk ri tr rest prev' st' [] rng' with ⟨bs, sf, bf, qf⟩
        have hih := ih prev' st' [] rng' (by simpa using hC)
        rw [hr1] at hih
        obtain ⟨h1, h2, h3⟩ := hih
        dsimp only at h1 h2 h3
        dsimp only
        refine ⟨?_, h2, ?_⟩
        · intro b hbm
          rcases List.mem_cons.mp hbm with h | h
          · rw [h, hlen]
          · exact h1 b h
        · simp only [List.map_cons, List.sum_cons, List.length_cons, List.length_nil,
            List.length_append] at h3 ⊢
          omega
      · rename_i hcond
        have hb' : (buf ++ [p]).length < chunk := by
          simp only [List.length_append, List.length_cons, List.length_nil] at hcond ⊢
          omega
        have hih := ih prev' st' (buf ++ [p]) rng' hb'
        obtain ⟨h1, h2, h3⟩ := hih
        refine ⟨h1, h2, ?_⟩
        simp only [List.length_append, List.length_cons, List.length_nil] at h3
        simp only [List.length_cons]
        omega

theorem ceil_div_char (n C ℓ : Nat) (hC : 0 < C) (hℓ : ℓ < C) :
    (n * C + ℓ + C - 1) / C = n + (if ℓ = 0 then 0 else 1) := by
  rcases Nat.eq_zero_or_pos ℓ with h | h
  · subst h
    have e : n * C + 0 + C - 1 = (C - 1) + n * C := by
      have h1 : 0 < C := hC
      omega
    rw [e, Nat.add_mul_div_right _ _ hC, Nat.div_eq_of_lt (by omega)]
    simp
  · have hne : ℓ ≠ 0 := by omega
    have e : n * C + ℓ + C - 1 = (ℓ - 1) + (n + 1) * C := by
      rw [Nat.succ_mul]
      omega
    rw [e, Nat.add_mul_div_right _ _ hC, Nat.div_eq_of_lt (by omega)]
    simp [hne]

theorem map_length_sum_const {α : Type} (C : Nat) :
    ∀ bs : List (List α), (∀ b ∈ bs, b.length = C) →
      (bs.map List.length).sum = bs.length * C := by
  intro bs
  induction bs with
  | nil => intro; simp
  | cons b rest ih =>
      intro h
      simp only [List.map_cons, List.sum_cons, List.length_cons]
      rw [h b (by simp), ih (fun x hx => h x (by simp [hx]))]
      ring

theorem runOne_char (cfg : SimulationConfig) (k : Nat) (rng : Rng) :
    ∃ (bs : List (List RoundPayload)) (rc : RunCompletePayload),
      (runOne cfg k rng).1 = bs.map Event.round_batch ++ [Event.run_complete rc] ∧
      bs.flatten = (roundRecs cfg.player_strategies.1 cfg.player_strategies.2 cfg.payoffs
          k cfg.rounds.toNat (natRange 1 cfg.rounds.toNat) (0, 0) {} rng).1 ∧
      rc.outcome_counts = (roundRecs cfg.player_strategies.1 cfg.player_strategies.2 cfg.payoffs
          k cfg.rounds.toNat (natRange 1 cfg.rounds.toNat) (0, 0) {} rng).2.1.counts ∧
      rc.total_payoff1 = (roundRecs cfg.player_strategies.1 cfg.player_strategies.2 cfg.payoffs
          k cfg.rounds.toNat (natRange 1 cfg.rounds.toNat) (0, 0) {} rng).2.1.payoff1 ∧
      (0 < cfg.round_event_chunk_size.toNat →
        bs.length = (cfg.rounds.toNat + cfg.round_event_chunk_size.toNat - 1) /
            cfg.round_event_chunk_size.toNat ∧
        (∀ b ∈ bs, b.length ≤ cfg.round_event_chunk_size.toNat) ∧
        (bs.map List.length).sum = cfg.rounds.toNat ∧
        (∀ b ∈ bs.dropLast, b.length = cfg.round_event_chunk_size.toNat)) := by
  rcases hq : roundLoop cfg.player_strategies.1 cfg.player_strategies.2 cfg.payoffs
      cfg.round_event_chunk_size.toNat k cfg.rounds.toNat
      (natRange 1 cfg.rounds.toNat) (0, 0) {} [] rng with ⟨batches, st, buf, rng'⟩
  have hrecs := roundLoop_recs cfg.player_strategies.1 cfg.player_strategies.2 cfg.payoffs
      cfg.round_event_chunk_size.toNat k cfg.rounds.toNat
      (natRange 1 cfg.rounds.toNat) (0, 0) {} [] rng
  rw [hq] at hrecs
  dsimp only at hrecs
  obtain ⟨hjoin, hst, _⟩ := hrecs
  simp only [List.nil_append] at hjoin
  have hchunks : 0 < cfg.round_event_chunk_size.toNat →
      (∀ b ∈ batches, b.length = cfg.round_event_chunk_size.toNat) ∧
      buf.length < cfg.round_event_chunk_size.toNat ∧
      (batches.map List.length).sum + buf.length = cfg.rounds.toNat := by
    intro hC
    have h := roundLoop_chunks cfg.player_strategies.1 cfg.player_strategies.2 cfg.payoffs
        cfg.round_event_chunk_size.toNat k cfg.rounds.toNat hC
        (natRange 1 cfg.rounds.toNat) (0, 0) {} [] rng (by simpa using hC)
    rw [hq] at h
    dsimp only at h
    simpa [natRange_length] using h
  rcases buf with _ | ⟨x, xs⟩
  · refine ⟨batches,
      ⟨k, st.payoff1, st.payoff2, st.coop1, st.coop2,
       st.payoff1 / (cfg.rounds : Rat), st.payoff2 / (cfg.rounds : Rat),
       (st.coop1 : Rat) / (cfg.rounds : Rat), (st.coop2 : Rat) / (cfg.rounds : Rat),
       st.counts⟩, ?_, ?_, ?_, ?_, ?_⟩
    · simp only [runOne, hq]
      rfl
    · simpa using hjoin
    · simpa using congrArg RunState.counts hst
    · simpa using congrArg RunState.payoff1 hst
    · intro hC
      obtain ⟨g1, g2, g3⟩ := hchunks hC
      simp only [List.length_nil, Nat.add_zero] at g3
      have hsum : (batches.map List.length).sum =
          batches.length * cfg.round_event_chunk_size.toNat :=
        map_length_sum_const _ batches g1
      have hR : cfg.rounds.toNat = batches.length * cfg.round_event_chunk_size.toNat := by
        omega
      refine ⟨?_, fun b hb => le_of_eq (g1 b hb), g3,
        fun b hb => g1 b ((List.dropLast_sublist batches).subset hb)⟩
      have hceil := ceil_div_char batches.length cfg.round_event_chunk_size.toNat 0 hC hC
      simp only [Nat.add_zero, if_pos rfl] at hceil
      rw [hR, hceil]
      simp
  · refine ⟨batches ++ [x :: xs],
      ⟨k, st.payoff1, st.payoff2, st.coop1, st.coop2,
       st.payoff1 / (cfg.rounds : Rat), st.payoff2 / (cfg.rounds : Rat),
       (st.coop1 : Rat) / (cfg.rounds : Rat), (st.coop2 : Rat) / (cfg.rounds : Rat),
       st.counts⟩, ?_, ?_, ?_, ?_, ?_⟩
    · simp only [runOne, hq]
      rfl
    · simpa [List.flatten_append] using hjoin
    · simpa using congrArg RunState.counts hst
    · simpa using congrArg RunState.payoff1 hst
    · intro hC
      obtain ⟨g1, g2, g3⟩ := hchunks hC
      have hsum : (batches.map List.length).sum =
          batches.length * cfg.round_event_chunk_size.toNat :=
        map_length_sum_const _ batches g1
      have hR : cfg.rounds.toNat =
          batches.length * cfg.round_event_chunk_size.toNat + (x :: xs).length := by
        omega
      refine ⟨?_, ?_, ?_, ?_⟩
      · rw [List.length_append, hR]
        have hceil := ceil_div_char batches.length cfg.round_event_chunk_size.toNat
          (x :: xs).length hC g2
        rw [hceil, if_neg (by simp)]
        simp
      · intro b hb
        rcases List.mem_append.mp hb with h | h
        · exact le_of_eq (g1 b h)
        · simp only [List.mem_singleton] at h
          subst h
          exact le_of_lt g2
      · rw [List.map_append, List.sum_append]
        simp only [List.map_cons, List.map_nil, List.sum_cons, List.sum_nil]
        omega
      · rw [List.dropLast_concat]
        exact g1

theorem runOne_counts (cfg : SimulationConfig) (k : Nat) (rng : Rng) :
    (runOne cfg k rng).2.1.counts.total = cfg.rounds.toNat := by
  rcases hq : roundLoop cfg.player_strategies.1 cfg.player_strategies.2 cfg.payoffs
      cfg.round_event_chunk_size.toNat k cfg.rounds.toNat
      (natRange 1 cfg.rounds.toNat) (0, 0) {} [] rng with ⟨batches, st, buf, rng'⟩
  have hrecs := roundLoop_recs cfg.player_strategies.1 cfg.player_strategies.2 cfg.payoffs
      cfg.round_event_chunk_size.toNat k cfg.rounds.toNat
      (natRange 1 cfg.rounds.toNat) (0, 0) {} [] rng
  rw [hq] at hrecs
  dsimp only at hrecs
  obtain ⟨_, hst, _⟩ := hrecs
  have hcounts := roundRecs_counts cfg.player_strategies.1 cfg.player_strategies.2 cfg.payoffs
      k cfg.rounds.toNat (natRange 1 cfg.rounds.toNat) (0, 0) {} rng
  simp only [runOne, hq]
  rw [hst, hcounts]
  simp [natRange_length, Counts.total]

theorem runsLoop_segs (cfg : SimulationConfig) :
    ∀ (ks : List Nat) (ov : OverallState) (rng : Rng),
      ∃ segs : List (List Event),
        (runsLoop cfg ks ov rng).1 = segs.flatten ∧
        segs.length = ks.length ∧
        ∀ seg ∈ segs, ∃ k' rng', seg = (runOne cfg k' rng').1 := by
  intro ks
  induction ks with
  | nil =>
      intro ov rng
      exact ⟨[], by simp [runsLoop], rfl, by simp⟩
  | cons k rest ih =>
      intro ov rng
      rcases hq : runOne cfg k rng with ⟨evs, st, rng'⟩
      simp only [runsLoop, hq]
      obtain ⟨segs, h1, h2, h3⟩ := ih
        ⟨ov.payoff1 + st.payoff1, ov.payoff2 + st.payoff2,
         ov.coop1 + st.coop1, ov.coop2 + st.coop2, ov.counts.add st.counts⟩ rng'
      rcases hr : runsLoop cfg rest
          ⟨ov.payoff1 + st.payoff1, ov.payoff2 + st.payoff2,
           ov.coop1 + st.coop1, ov.coop2 + st.coop2, ov.counts.add st.counts⟩ rng'
        with ⟨evsR, ovF, rngF⟩

      rw [hr] at h1
      dsimp only at h1
      refine ⟨evs :: segs, ?_, by simp [h2], ?_⟩
      · simp only [List.flatten_cons, h1]
      · intro seg hseg
        rcases List.mem_cons.mp hseg with h | h
        · exact ⟨k, rng, by rw [h, hq]⟩
        · exact h3 seg h

theorem runsLoop_counts (cfg : SimulationConfig) :
    ∀ (ks : List Nat) (ov : OverallState) (rng : Rng),
      (runsLoop cfg ks ov rng).2.1.counts.total =
        ov.counts.total + ks.length * cfg.rounds.toNat := by
  intro ks
  induction ks with
  | nil => intro ov rng; simp [runsLoop]
  | cons k rest ih =>
      intro ov rng
      rcases hq : runOne cfg k rng with ⟨evs, st, rng'⟩
      have hone := runOne_counts cfg k rng
      rw [hq] at hone
      dsimp only at hone
      simp only [runsLoop, hq]
      rcases hr : runsLoop cfg rest
          ⟨ov.payoff1 + st.payoff1, ov.payoff2 + st.payoff2,
           ov.coop1 + st.coop1, ov.coop2 + st.coop2, ov.counts.add st.counts⟩ rng'
        with ⟨evsR, ovF, rngF⟩
      have := ih
        ⟨ov.payoff1 + st.payoff1, ov.payoff2 + st.payoff2,
         ov.coop1 + st.coop1, ov.coop2 + st.coop2, ov.counts.add st.counts⟩ rng'
      rw [hr] at this
      rw [this]
      dsimp only
      rw [Counts.total_add, hone]
      simp only [List.length_cons]
      ring

/-- C1: for every valid configuration, every `run_complete` event carries
outcome counts summing to rounds-per-run, and the final summary carries
outcome counts summing to rounds-per-run times the number of runs. -/
theorem outcome_counts_sum (cfg : SimulationConfig) (rng : Rng)
    (hr : 0 < cfg.rounds) (hn : 0 < cfg.monte_carlo_runs) :
    (∀ e ∈ run_simulation cfg rng, ∀ rc, e = Event.run_complete rc →
        rc.outcome_counts.total = cfg.rounds.toNat) ∧
    (∀ e ∈ run_simulation cfg rng, ∀ s, e = Event.summary s →
        s.outcome_counts.total = cfg.rounds.toNat * cfg.monte_carlo_runs.toNat) := by
  rcases hq : runsLoop cfg (natRange 1 cfg.monte_carlo_runs.toNat) {} rng with ⟨evs, ov, rngF⟩
  have hsim : run_simulation cfg rng = evs ++ [Event.summary (mkSummary cfg ov)] := by
    simp only [run_simulation, hq]
  obtain ⟨segs, hflat, hlen, hsegs⟩ :=
    runsLoop_segs cfg (natRange 1 cfg.monte_carlo_runs.toNat) {} rng
  rw [hq] at hflat
  dsimp only at hflat
  have hcnt := runsLoop_counts cfg (natRange 1 cfg.monte_carlo_runs.toNat) {} rng
  rw [hq] at hcnt
  dsimp only at hcnt
  constructor
  · intro e he rc hrc
    rw [hsim] at he
    rcases List.mem_append.mp he with he | he
    · rw [hflat] at he
      obtain ⟨seg, hsegmem, hesg⟩ := List.mem_flatten.mp he
      obtain ⟨k', rng', hseg⟩ := hsegs seg hsegmem
      obtain ⟨bs, rc', hev, _, hrcc, _, _⟩ := runOne_char cfg k' rng'
      rw [hseg, hev] at hesg
      rcases List.mem_append.mp hesg with h | h
      · obtain ⟨b, _, habs⟩ := List.mem_map.mp h
        rw [hrc] at habs
        simp at habs
      · simp only [List.mem_singleton] at h
        rw [hrc] at h
        have hrc' : rc = rc' := by simpa using h
        subst hrc'
        rw [hrcc]
        have := roundRecs_counts cfg.player_strategies.1 cfg.player_strategies.2 cfg.payoffs
          k' cfg.rounds.toNat (natRange 1 cfg.rounds.toNat) (0, 0) {} rng'
        rw [this, natRange_length]
        simp [Counts.total]
    · simp only [List.mem_singleton] at he
      rw [he] at hrc
      simp at hrc
  · intro e he s hs
    rw [hsim] at he
    rcases List.mem_append.mp he with he | he
    · rw [hflat] at he
      obtain ⟨seg, hsegmem, hesg⟩ := List.mem_flatten.mp he
      obtain ⟨k', rng', hseg⟩ := hsegs seg hsegmem
      obtain ⟨bs, rc', hev, _, _, _, _⟩ := runOne_char cfg k' rng'
      rw [hseg, hev] at hesg
      rcases List.mem_append.mp hesg with h | h
      · obtain ⟨b, _, habs⟩ := List.mem_map.mp h
        rw [hs] at habs
        simp at habs
      · simp only [List.mem_singleton] at h
        rw [hs] at h
        simp at h
    · simp only [List.mem_singleton] at he
      rw [he] at hs
      have hs' : s = mkSummary cfg ov := by simpa using hs.symm
      subst hs'
      have hov : ov.counts.total =
          (natRange 1 cfg.monte_carlo_runs.toNat).length * cfg.rounds.toNat := by
        simpa [Counts.total] using hcnt
      rw [natRange_length] at hov
      simp only [mkSummary]
      rw [hov, Nat.mul_comm]

/-- Witness for C1 at the concrete demo configuration and random source. -/
theorem outcome_counts_sum_witness :
    ((0 : Int) < demoConfig.rounds ∧ (0 : Int) < demoConfig.monte_carlo_runs) ∧
    ((∀ e ∈ run_simulation demoConfig constRng, ∀ rc, e = Event.run_complete rc →
        rc.outcome_counts.total = demoConfig.rounds.toNat) ∧
     (∀ e ∈ run_simulation demoConfig constRng, ∀ s, e = Event.summary s →
        s.outcome_counts.total = demoConfig.rounds.toNat * demoConfig.monte_carlo_runs.toNat)) :=
  ⟨⟨by decide, by decide⟩, outcome_counts_sum demoConfig constRng (by decide) (by decide)⟩

/-- C4: for every valid configuration, the event stream is, run by run, a
block of zero or more `round_batch` events followed by exactly one
`run_complete` event, with exactly one `summary` event closing the whole
stream as its final element. -/
theorem event_stream_shape (cfg : SimulationConfig) (rng : Rng)
    (hr : 0 < cfg.rounds) (hn : 0 < cfg.monte_carlo_runs)
    (hc : 0 < cfg.round_event_chunk_size) :
    ∃ (segs : List (List Event)) (s : SummaryPayload),
      run_simulation cfg rng = segs.flatten ++ [Event.summary s] ∧
      segs.length = cfg.monte_carlo_runs.toNat ∧
      ∀ seg ∈ segs, ∃ (bs : List (List RoundPayload)) (rc : RunCompletePayload),
        seg = bs.map Event.round_batch ++ [Event.run_complete rc] := by
  rcases hq : runsLoop cfg (natRange 1 cfg.monte_carlo_runs.toNat) {} rng with ⟨evs, ov, rngF⟩
  obtain ⟨segs, hflat, hlen, hsegs⟩ :=
    runsLoop_segs cfg (natRange 1 cfg.monte_carlo_runs.toNat) {} rng
  rw [hq] at hflat
  dsimp only at hflat
  refine ⟨segs, mkSummary cfg ov, ?_, by rw [hlen, natRange_length], ?_⟩
  · simp only [run_simulation, hq]
    rw [hflat]
  · intro seg hseg
    obtain ⟨k', rng', hseg'⟩ := hsegs seg hseg
    obtain ⟨bs, rc, hev, _, _, _, _⟩ := runOne_char cfg k' rng'
    exact ⟨bs, rc, by rw [hseg', hev]⟩

/-- Witness for C4 at the concrete demo configuration and random source. -/
theorem event_stream_shape_witness :
    ((0 : Int) < demoConfig.rounds ∧ (0 : Int) < demoConfig.monte_carlo_runs ∧
      (0 : Int) < demoConfig.round_event_chunk_size) ∧
    (∃ (segs : List (List Event)) (s : SummaryPayload),
      run_simulation demoConfig constRng = segs.flatten ++ [Event.summary s] ∧
      segs.length = demoConfig.monte_carlo_runs.toNat ∧
      ∀ seg ∈ segs, ∃ (bs : List (List RoundPayload)) (rc : RunCompletePayload),
        seg = bs.map Event.round_batch ++ [Event.run_complete rc]) :=
  ⟨⟨by decide, by decide, by decide⟩,
   event_stream_shape demoConfig constRng (by decide) (by decide) (by decide)⟩

/-- C5: for every valid configuration with rounds R and chunk size C, each
run emits exactly ceil(R / C) = (R + C - 1) / C round batches, each of at
most C records, whose sizes sum to R, and every batch except possibly the
last has exactly C records (the trailing partial batch is flushed, never
dropped). -/
theorem round_batch_chunking (cfg : SimulationConfig) (rng : Rng)
    (hr : 0 < cfg.rounds) (hn : 0 < cfg.monte_carlo_runs)
    (hc : 0 < cfg.round_event_chunk_size) :
    ∃ (segs : List (List Event)) (s : SummaryPayload),
      run_simulation cfg rng = segs.flatten ++ [Event.summary s] ∧
      segs.length = cfg.monte_carlo_runs.toNat ∧
      ∀ seg ∈ segs, ∃ (bs : List (List RoundPayload)) (rc : RunCompletePayload),
        seg = bs.map Event.round_batch ++ [Event.run_complete rc] ∧
        bs.length = (cfg.rounds.toNat + cfg.round_event_chunk_size.toNat - 1) /
            cfg.round_event_chunk_size.toNat ∧
        (∀ b ∈ bs, b.length ≤ cfg.round_event_chunk_size.toNat) ∧
        (bs.map List.length).sum = cfg.rounds.toNat ∧
        (∀ b ∈ bs.dropLast, b.length = cfg.round_event_chunk_size.toNat) := by
  have hCn : 0 < cfg.round_event_chunk_size.toNat := by omega
  rcases hq : runsLoop cfg (natRange 1 cfg.monte_carlo_runs.toNat) {} rng with ⟨evs, ov, rngF⟩
  obtain ⟨segs, hflat, hlen, hsegs⟩ :=
    runsLoop_segs cfg (natRange 1 cfg.monte_carlo_runs.toNat) {} rng
  rw [hq] at hflat
  dsimp only at hflat
  refine ⟨segs, mkSummary cfg ov, ?_, by rw [hlen, natRange_length], ?_⟩
  · simp only [run_simulation, hq]
    rw [hflat]
  · intro seg hseg
    obtain ⟨k', rng', hseg'⟩ := hsegs seg hseg
    obtain ⟨bs, rc, hev, _, _, _, hfacts⟩ := runOne_char cfg k' rng'
    obtain ⟨f1, f2, f3, f4⟩ := hfacts hCn
    exact ⟨bs, rc, by rw [hseg', hev], f1, f2, f3, f4⟩

/-- Witness for C5 at the concrete demo configuration (3 rounds, chunk 2:
two batches per run, of sizes 2 and 1). -/
theorem round_batch_chunking_witness :
    ((0 : Int) < demoConfig.rounds ∧ (0 : Int) < demoConfig.monte_carlo_runs ∧
      (0 : Int) < demoConfig.round_event_chunk_size) ∧
    (∃ (segs : List (List Event)) (s : SummaryPayload),
      run_simulation demoConfig constRng = segs.flatten ++ [Event.summary s] ∧
      segs.length = demoConfig.monte_carlo_runs.toNat ∧
      ∀ seg ∈ segs, ∃ (bs : List (List RoundPayload)) (rc : RunCompletePayload),
        seg = bs.map Event.round_batch ++ [Event.run_complete rc] ∧
        bs.length = (demoConfig.rounds.toNat + demoConfig.round_event_chunk_size.toNat - 1) /
            demoConfig.round_event_chunk_size.toNat ∧
        (∀ b ∈ bs, b.length ≤ demoConfig.round_event_chunk_size.toNat) ∧
        (bs.map List.length).sum = demoConfig.rounds.toNat ∧
        (∀ b ∈ bs.dropLast, b.length = demoConfig.round_event_chunk_size.toNat)) :=
  ⟨⟨by decide, by decide, by decide⟩,
   round_batch_chunking demoConfig constRng (by decide) (by decide) (by decide)⟩

theorem sample_action_defect (s : StrategyConfig) (hs : s.strategy_type = .always_defect)
    (i prevA : Nat) (rng : Rng) : s.sample_action i prevA rng = (1, rng) := by
  simp [StrategyConfig.sample_action, hs]

theorem sample_action_tft_first (s : StrategyConfig) (hs : s.strategy_type = .tit_for_tat)
    (prevA : Nat) (rng : Rng) : s.sample_action 1 prevA rng = (0, rng) := by
  simp [StrategyConfig.sample_action, hs]

theorem sample_action_tft_mirror (s : StrategyConfig) (hs : s.strategy_type = .tit_for_tat)
    (i : Nat) (hi : i ≠ 1) (rng : Rng) : s.sample_action i 1 rng = (1, rng) := by
  simp [StrategyConfig.sample_action, hs, hi]

theorem tft_defect_tail (s1 s2 : StrategyConfig) (pc : PayoffConfig) (ri tr : Nat)
    (hs1 : s1.strategy_type = .tit_for_tat) (hs2 : s2.strategy_type = .always_defect) :
    ∀ (k j : Nat), 2 ≤ j → ∀ (prev : Nat × Nat), prev.2 = 1 → ∀ (st : RunState) (rng : Rng),
      ((roundRecs s1 s2 pc ri tr (natRange j k) prev st rng).2.1.payoff1
          = st.payoff1 + (k : Rat) * pc.punishment) ∧
      ((roundRecs s1 s2 pc ri tr (natRange j k) prev st rng).1.map (fun p => p.round)
          = natRange j k) ∧
      (∀ p ∈ (roundRecs s1 s2 pc ri tr (natRange j k) prev st rng).1,
          p.action1 = "D" ∧ 2 ≤ p.round) := by
  intro k
  induction k with
  | zero =>
      intro j hj prev hp st rng
      simp [natRange, roundRecs]
  | succ m ih =>
      intro j hj prev hp st rng
      have ha1 : s1.sample_action j prev.2 rng = (1, rng) := by
        rw [hp]
        exact sample_action_tft_mirror s1 hs1 j (by omega) rng
      have ha2 : s2.sample_action j prev.1 rng = (1, rng) :=
        sample_action_defect s2 hs2 j prev.1 rng
      have hpay1 : (roundStep s1 s2 pc ri tr j prev st rng).2.1.payoff1 =
          st.payoff1 + pc.punishment := by
        simp [roundStep, ha1, ha2, PayoffConfig.payoff_for]
      have hprev2 : (roundStep s1 s2 pc ri tr j prev st rng).2.2.1.2 = 1 := by
        simp [roundStep, ha1, ha2]
      have hround : (roundStep s1 s2 pc ri tr j prev st rng).1.round = j := by
        simp [roundStep, ha1, ha2]
      have haction : (roundStep s1 s2 pc ri tr j prev st rng).1.action1 = "D" := by
        simp [roundStep, ha1, ha2]
      rcases hq : roundStep s1 s2 pc ri tr j prev st rng with ⟨p, st', prev', rng2⟩
      rw [hq] at hpay1 hprev2 hround haction
      dsimp only at hpay1 hprev2 hround haction
      simp only [natRange, roundRecs, hq]
      rcases hr : roundRecs s1 s2 pc ri tr (natRange (j + 1) m) prev' st' rng2
        with ⟨ps, sf, qf⟩
      have hih := ih (j + 1) (by omega) prev' hprev2 st' rng2
      rw [hr] at hih
      obtain ⟨i1, i2, i3⟩ := hih
      dsimp only at i1 i2 i3 ⊢
      refine ⟨?_, ?_, ?_⟩
      · rw [i1, hpay1]
        push_cast
        ring
      · simp only [List.map_cons, hround, i2]
      · intro q hqm
        rcases List.mem_cons.mp hqm with h | h
        · subst h
          exact ⟨haction, by omega⟩
        · exact i3 q h

theorem tft_defect_run (s1 s2 : StrategyConfig) (pc : PayoffConfig) (ri tr : Nat)
    (hs1 : s1.strategy_type = .tit_for_tat) (hs2 : s2.strategy_type = .always_defect)
    (R : Nat) (hR : 1 ≤ R) (rng : Rng) :
    ((roundRecs s1 s2 pc ri tr (natRange 1 R) (0, 0) {} rng).2.1.payoff1
        = pc.sucker + ((R - 1 : Nat) : Rat) * pc.punishment) ∧
    ((roundRecs s1 s2 pc ri tr (natRange 1 R) (0, 0) {} rng).1.map (fun p => p.round)
        = natRange 1 R) ∧
    (∀ p ∈ (roundRecs s1 s2 pc ri tr (natRange 1 R) (0, 0) {} rng).1,
        p.action1 = (if p.round = 1 then "C" else "D")) := by
  rcases R with _ | m
  · omega
  have ha1 : s1.sample_action 1 ((0, 0) : Nat × Nat).2 rng = (0, rng) :=
    sample_action_tft_first s1 hs1 _ rng
  have ha2 : s2.sample_action 1 ((0, 0) : Nat × Nat).1 rng = (1, rng) :=
    sample_action_defect s2 hs2 1 _ rng
  have hpay1 : (roundStep s1 s2 pc ri tr 1 (0, 0) {} rng).2.1.payoff1 = pc.sucker := by
    simp [roundStep, ha1, ha2, PayoffConfig.payoff_for]
  have hprev2 : (roundStep s1 s2 pc ri tr 1 (0, 0) {} rng).2.2.1.2 = 1 := by
    simp [roundStep, ha1, ha2]
  have hround : (roundStep s1 s2 pc ri tr 1 (0, 0) {} rng).1.round = 1 := by
    simp [roundStep, ha1, ha2]
  have haction : (roundStep s1 s2 pc ri tr 1 (0, 0) {} rng).1.action1 = "C" := by
    simp [roundStep, ha1, ha2]
  rcases hq : roundStep s1 s2 pc ri tr 1 (0, 0) {} rng with ⟨p, st', prev', rng2⟩
  rw [hq] at hpay1 hprev2 hround haction
  dsimp only at hpay1 hprev2 hround haction
  simp only [natRange, roundRecs, hq]
  rcases hr : roundRecs s1 s2 pc ri tr (natRange 2 m) prev' st' rng2 with ⟨ps, sf, qf⟩
  have htail := tft_defect_tail s1 s2 pc ri tr hs1 hs2 m 2 (by omega) prev' hprev2 st' rng2
  rw [hr] at htail
  obtain ⟨t1, t2, t3⟩ := htail
  dsimp only at t1 t2 t3 ⊢
  refine ⟨?_, ?_, ?_⟩
  · rw [t1, hpay1]
    simp
  · simp only [List.map_cons, hround, t2]
  · intro q hqm
    rcases List.mem_cons.mp hqm with h | h
    · subst h
      rw [hround, haction]
      simp
    · obtain ⟨hd, hge⟩ := t3 q h
      rw [hd, if_neg (by omega)]

/-- C6: under tit-for-tat (player 1) versus always-defect (player 2), in
every run player 1 cooperates exactly in round 1 and defects in every round
from 2 to R, and player 1's per-run total payoff equals
sucker + (R - 1) * punishment. -/
theorem tit_for_tat_vs_always_defect (cfg : SimulationConfig) (rng : Rng)
    (hs1 : cfg.player_strategies.1.strategy_type = .tit_for_tat)
    (hs2 : cfg.player_strategies.2.strategy_type = .always_defect)
    (hr : 0 < cfg.rounds) (hn : 0 < cfg.monte_carlo_runs) :
    ∃ (segs : List (List Event)) (s : SummaryPayload),
      run_simulation cfg rng = segs.flatten ++ [Event.summary s] ∧
      segs.length = cfg.monte_carlo_runs.toNat ∧
      ∀ seg ∈ segs, ∃ (bs : List (List RoundPayload)) (rc : RunCompletePayload),
        seg = bs.map Event.round_batch ++ [Event.run_complete rc] ∧
        rc.total_payoff1 = cfg.payoffs.sucker +
          ((cfg.rounds.toNat - 1 : Nat) : Rat) * cfg.payoffs.punishment ∧
        (bs.flatten.map (fun p => p.round) = natRange 1 cfg.rounds.toNat) ∧
        (∀ p ∈ bs.flatten, p.action1 = (if p.round = 1 then "C" else "D")) := by
  rcases hq : runsLoop cfg (natRange 1 cfg.monte_carlo_runs.toNat) {} rng with ⟨evs, ov, rngF⟩
  obtain ⟨segs, hflat, hlen, hsegs⟩ :=
    runsLoop_segs cfg (natRange 1 cfg.monte_carlo_runs.toNat) {} rng
  rw [hq] at hflat
  dsimp only at hflat
  refine ⟨segs, mkSummary cfg ov, ?_, by rw [hlen, natRange_length], ?_⟩
  · simp only [run_simulation, hq]
    rw [hflat]
  · intro seg hseg
    obtain ⟨k', rng', hseg'⟩ := hsegs seg hseg
    obtain ⟨bs, rc, hev, hbsj, _, hrcp, _⟩ := runOne_char cfg k' rng'
    obtain ⟨r1, r2, r3⟩ := tft_defect_run cfg.player_strategies.1 cfg.player_strategies.2
      cfg.payoffs k' cfg.rounds.toNat hs1 hs2 cfg.rounds.toNat (by omega) rng'
    refine ⟨bs, rc, by rw [hseg', hev], ?_, ?_, ?_⟩
    · rw [hrcp, r1]
    · rw [hbsj, r2]
    · intro p hp
      rw [hbsj] at hp
      exact r3 p hp

/-- Witness for C6 at the concrete tit-for-tat versus always-defect
configuration and random source. -/
theorem tit_for_tat_vs_always_defect_witness :
    (tftConfig.player_strategies.1.strategy_type = .tit_for_tat ∧
      tftConfig.player_strategies.2.strategy_type = .always_defect ∧
      (0 : Int) < tftConfig.rounds ∧ (0 : Int) < tftConfig.monte_carlo_runs) ∧
    (∃ (segs : List (List Event)) (s : SummaryPayload),
      run_simulation tftConfig constRng = segs.flatten ++ [Event.summary s] ∧
      segs.length = tftConfig.monte_carlo_runs.toNat ∧
      ∀ seg ∈ segs, ∃ (bs : List (List RoundPayload)) (rc : RunCompletePayload),
        seg = bs.map Event.round_batch ++ [Event.run_complete rc] ∧
        rc.total_payoff1 = tftConfig.payoffs.sucker +
          ((tftConfig.rounds.toNat - 1 : Nat) : Rat) * tftConfig.payoffs.punishment ∧
        (bs.flatten.map (fun p => p.round) = natRange 1 tftConfig.rounds.toNat) ∧
        (∀ p ∈ bs.flatten, p.action1 = (if p.round = 1 then "C" else "D"))) :=
  ⟨⟨rfl, rfl, by decide, by decide⟩,
   tit_for_tat_vs_always_defect tftConfig constRng rfl rfl (by decide) (by decide)⟩

theorem streamLoop_stop (p1 p2 : Rat) (rounds batchSize : Nat) (running : Nat → Bool)
    (hb : 0 < batchSize) :
    ∀ (j fuel remaining completed k : Nat) (st : StreamState) (rng : Rng),
      j * batchSize < remaining → remaining ≤ fuel →
      (∀ i, i < j → running (k + i) = true) →
      (∀ i, j ≤ i → running (k + i) = false) →
      (streamLoop p1 p2 rounds batchSize running fuel remaining completed k st rng).1.length
          = j ∧
      (∀ e ∈ (streamLoop p1 p2 rounds batchSize running fuel remaining completed k st rng).1,
        e.isTerminal = false) ∧
      (streamLoop p1 p2 rounds batchSize running fuel remaining completed k st rng).2.2.2.1
          = k + j + 1 := by
  intro j
  induction j with
  | zero =>
      intro fuel remaining completed k st rng hrem hfuel hlt hge
      rcases fuel with _ | f
      · omega
      have h0 : ¬(remaining = 0) := by omega
      have hrun : running k = false := by simpa using hge 0 (by omega)
      refine ⟨?_, ?_, ?_⟩ <;> simp [streamLoop, h0, hrun]
  | succ m ih =>
      intro fuel remaining completed k st rng hrem hfuel hlt hge
      have hsm : (m + 1) * batchSize = m * batchSize + batchSize := Nat.succ_mul m batchSize
      have hble : batchSize ≤ remaining := by omega
      rcases fuel with _ | f
      · omega
      have h0 : ¬(remaining = 0) := by omega
      have hrun : running k = true := by simpa using hlt 0 (by omega)
      have hbmin : min batchSize remaining = batchSize := Nat.min_eq_left hble
      have hbne : ¬(batchSize = 0) := by omega
      rcases hd1 : drawBools p1 batchSize rng with ⟨acts1, rng1⟩
      rcases hd2 : drawBools p2 batchSize rng1 with ⟨acts2, rng2⟩
      rcases hs : streamLoop p1 p2 rounds batchSize running f (remaining - batchSize)
          (completed + batchSize) (k + 1) (streamAccum st (acts1.zip acts2)) rng2
        with ⟨evs, stF, cF, kF, rngF⟩
      have hih := ih f (remaining - batchSize) (completed + batchSize) (k + 1)
        (streamAccum st (acts1.zip acts2)) rng2
        (by omega) (by omega)
        (fun i hi => by
          have h := hlt (i + 1) (by omega)
          rw [show k + 1 + i = k + (i + 1) by omega]
          exact h)
        (fun i hi => by
          have h := hge (i + 1) (by omega)
          rw [show k + 1 + i = k + (i + 1) by omega]
          exact h)
      rw [hs] at hih
      obtain ⟨i1, i2, i3⟩ := hih
      dsimp only at i1 i2 i3
      refine ⟨?_, ?_, ?_⟩
      · simp [streamLoop, h0, hrun, hbmin, hbne, hd1, hd2, hs, i1]
      · intro e he
        simp only [streamLoop, h0, hrun, hbmin, hbne, hd1, hd2, hs] at he
        simp only [if_false, Bool.true_eq_false, reduceIte, List.mem_cons] at he
        rcases he with h | h
        · rw [h]
          rfl
        · exact i2 e h
      · simp [streamLoop, h0, hrun, hbmin, hbne, hd1, hd2, hs]
        omega

/-- C7 counterexample: with 2 rounds, batch size 1 and a session marked
stopped after the first batch boundary, the streaming loop terminates early
having emitted a single progress event and no terminal event at all — no
partial summary and no error event carry the accumulated totals. -/
theorem streaming_stop_counterexample :
    (run_simulation_streaming ((1 : Rat) / 2) ((1 : Rat) / 2) 2 1
        (fun k => decide (k = 0)) constRng).length = 1 ∧
    ∀ e ∈ run_simulation_streaming ((1 : Rat) / 2) ((1 : Rat) / 2) 2 1
        (fun k => decide (k = 0)) constRng, e.isTerminal = false := by
  decide

/-- C7 amended: the streaming loop checks the stop flag at each batch
boundary and terminates early once it reads stopped, but it then emits
nothing further: when the flag first reads stopped at check j, before the
rounds are exhausted, the whole event stream is exactly the j progress
events already produced — no partial summary and no error event follow
(`simulation.py`'s `run_simulation` performs no stop check at all). -/
theorem streaming_stop_drops_summary (p1 p2 : Rat) (rounds batchSize : Nat)
    (running : Nat → Bool) (rng : Rng) (hb : 0 < batchSize) (j : Nat)
    (hearly : j * batchSize < rounds)
    (hjmin : ∀ i, i < j → running i = true)
    (hmono : ∀ i, j ≤ i → running i = false) :
    (run_simulation_streaming p1 p2 rounds batchSize running rng).length = j ∧
    ∀ e ∈ run_simulation_streaming p1 p2 rounds batchSize running rng,
      e.isTerminal = false := by
  have hr0 : ¬(rounds = 0) := by omega
  have hloop := streamLoop_stop p1 p2 rounds batchSize running hb j rounds rounds 0 0 {} rng
    hearly (le_refl rounds) (fun i hi => by simpa using hjmin i hi)
    (fun i hi => by simpa using hmono i hi)
  rcases hs : streamLoop p1 p2 rounds batchSize running rounds rounds 0 0 {} rng
    with ⟨evs, stF, cF, kF, rngF⟩
  rw [hs] at hloop
  obtain ⟨h1, h2, h3⟩ := hloop
  dsimp only at h1 h2 h3
  have hkF : running kF = false := by
    rw [h3]
    exact hmono (0 + j + 1) (by omega)
  simp only [run_simulation_streaming, hr0, hs, hkF, if_neg, if_false, Bool.false_eq_true,
    reduceIte]
  exact ⟨h1, h2⟩

/-- Witness for the amended C7 at concrete inputs: batch size 1, 2 rounds,
stop flag reading stopped from the second check on. -/
theorem streaming_stop_drops_summary_witness :
    (0 < 1 ∧ 1 * 1 < 2 ∧
      (∀ i, i < 1 → (fun k => decide (k = 0)) i = true) ∧
      (∀ i, 1 ≤ i → (fun k => decide (k = 0)) i = false)) ∧
    ((run_simulation_streaming ((1 : Rat) / 2) ((1 : Rat) / 2) 2 1
        (fun k => decide (k = 0)) constRng).length = 1 ∧
      ∀ e ∈ run_simulation_streaming ((1 : Rat) / 2) ((1 : Rat) / 2) 2 1
        (fun k => decide (k = 0)) constRng, e.isTerminal = false) :=
  ⟨⟨by decide, by decide,
    fun i hi => by simp [Nat.lt_one_iff.mp hi],
    fun i hi => by simp; omega⟩,
   streaming_stop_drops_summary ((1 : Rat) / 2) ((1 : Rat) / 2) 2 1
     (fun k => decide (k = 0)) constRng (by decide) 1 (by decide)
     (fun i hi => by simp [Nat.lt_one_iff.mp hi])
     (fun i hi => by simp; omega)⟩

/-- Witness for C8 at concrete inputs: a shifted-cursor copy of the constant
random source is equivalent to it and yields the same action sequence and
event stream. -/
theorem run_simulation_deterministic_witness :
    Rng.Equiv constRng ⟨fun _ => (1 : Rat) / 2, fun _ => false, 5, 7⟩ ∧
    (probActionSeq ((1 : Rat) / 2) 3 constRng =
        probActionSeq ((1 : Rat) / 2) 3 ⟨fun _ => (1 : Rat) / 2, fun _ => false, 5, 7⟩ ∧
      run_simulation ⟨2, 2, (⟨.probabilistic, (1 : Rat) / 2⟩, ⟨.random, 1⟩), {}, 2⟩ constRng =
        run_simulation ⟨2, 2, (⟨.probabilistic, (1 : Rat) / 2⟩, ⟨.random, 1⟩), {}, 2⟩
          ⟨fun _ => (1 : Rat) / 2, fun _ => false, 5, 7⟩) :=
  ⟨⟨fun _ => rfl, fun _ => rfl⟩,
   run_simulation_deterministic ⟨2, 2, (⟨.probabilistic, (1 : Rat) / 2⟩, ⟨.random, 1⟩), {}, 2⟩
     ((1 : Rat) / 2) 3 ⟨fun _ => rfl, fun _ => rfl⟩⟩

end Sim
